import Mathlib

/-!
Shallow embedding of `src/source/include/vector.h` (namespace `sc`):
a dynamic-array container `sc::vector<T>` with explicit `m_end` (size),
`m_capacity` and a heap buffer `m_storage` of `m_capacity` slots.

Modelling choices, justified against the source:
* The element type is instantiated at `Int` (the container is generic in `T`;
  every claim is about sizes, capacities, error paths and element shuffling,
  none about properties special to a particular `T`).  The "default value"
  written by the sized constructor (`*new value_type`), by `clear` and by
  `pop_back` (`*new value_type(0u)`) is modelled as `0`.
* `size_type` is `unsigned long` (64 bits).  All arithmetic that can actually
  wrap in the source is modelled with an explicit modulus `UCAP = 2^64`
  (`usub1` below, used by `back()`); everywhere else the quantities are small
  natural numbers and plain `Nat` is faithful.
* The buffer is a `List Int` whose length is the capacity (well-formedness
  `WF`).  A fresh allocation `new value_type[n]` is modelled as `n` default
  slots.  Reading the buffer at an in-bounds index is `List.getD _ _ 0`;
  an out-of-bounds buffer read (undefined behaviour in C++) is observable in
  the model: element accessors return `Access.ub` when the read falls outside
  the allocated buffer.
* `m_storage` can never be the null pointer for a constructed vector (every
  constructor resets it), but `insert`/`erase` do test it; the model keeps a
  boolean `m_null` for that test (`true` would mean a null `unique_ptr`).
* C++ exceptions become `Except VErr _` for mutators and the `Access` sum for
  element accessors.  The constructors of `VErr` are the error kinds of the
  spec taxonomy; each corresponds to one family of throw sites (see below).
-/

deriving instance DecidableEq for Except

namespace sc

/-- 2^64, the modulus of `size_type = unsigned long`. -/
def UCAP : Nat := 2 ^ 64

/-- Unsigned decrement `n - 1` on `size_type`: wraps to `2^64 - 1` at zero
(the source computes `this->size()-1` on a possibly empty vector). -/
def usub1 (n : Nat) : Nat := if n = 0 then UCAP - 1 else n - 1

/-- Error kinds thrown by the container.
`indexOutOfRange` = `std::out_of_range` on a bad index (`at`, offset checks);
`emptyContainer`  = the empty-vector throws of `pop_back` and `erase`
(`std::out_of_range` with an "is empty"/"empty vector" message);
`invalidArgument` = `std::invalid_argument` on an inverted or empty range;
`uninitializedContainer` = `std::runtime_error` when `m_storage == nullptr`. -/
inductive VErr where
  | indexOutOfRange
  | emptyContainer
  | invalidArgument
  | uninitializedContainer
deriving DecidableEq, Repr

/-- Result of an element access: a value, a thrown error, or an unchecked
read outside the allocated buffer (undefined behaviour in the C++ source,
made observable in the model). -/
inductive Access where
  | ok (x : Int)
  | err (e : VErr)
  | ub
deriving DecidableEq, Repr

/-- The state of an `sc::vector<int>`: `m_end` is the size, `m_capacity` the
capacity, `m_storage` the buffer (one list entry per allocated slot),
`m_null` whether the `unique_ptr` is null (never the case after any
constructor ran). -/
structure vector where
  m_end : Nat
  m_capacity : Nat
  m_storage : List Int
  m_null : Bool
deriving DecidableEq, Repr

namespace vector

/-- Well-formedness: the buffer has exactly `m_capacity` slots, the size is
bounded by the capacity, and the capacity fits in `size_type`. -/
def WF (v : vector) : Prop :=
  v.m_storage.length = v.m_capacity ∧ v.m_end ≤ v.m_capacity ∧ v.m_capacity < UCAP

instance (v : vector) : Decidable (WF v) := by unfold WF; infer_instance

/-- The raw buffer read `m_storage[i]` at an index known to be inside the
allocation (used by `at` after its bounds check, and by `equal`). -/
def slot (v : vector) (i : Nat) : Int := v.m_storage.getD i 0

/-- `vector(size_type count = 0)`: sets capacity and size to `count`,
allocates `count` slots and fills all of them with a default value. -/
def ctor (count : Nat) : vector :=
  { m_end := count, m_capacity := count,
    m_storage := List.replicate count 0, m_null := false }

/-- The initializer-list and range constructors: capacity = size = the length
of the input, elements copied in order into a fresh buffer. -/
def fromList (l : List Int) : vector :=
  { m_end := l.length, m_capacity := l.length, m_storage := l, m_null := false }

/-- Copy constructor and (non-self) copy assignment: same capacity and size,
fresh buffer of `capacity` slots with the live range `[0, size)` copied over
(slots past the live range are freshly allocated, i.e. default in the model). -/
def copy (other : vector) : vector :=
  { m_end := other.m_end, m_capacity := other.m_capacity,
    m_storage := other.m_storage.take other.m_end
                  ++ List.replicate (other.m_capacity - other.m_end) 0,
    m_null := false }

/-- `size()`. -/
def size (v : vector) : Nat := v.m_end

/-- `capacity()`. -/
def capacity (v : vector) : Nat := v.m_capacity

/-- `empty()`. -/
def emptyQ (v : vector) : Bool := v.m_end = 0

/-- `full()` (private): `size() == capacity()`. -/
def full (v : vector) : Bool := v.m_end = v.m_capacity

/-- `reserve(new_capacity)`: no-op unless `new_capacity > capacity`; otherwise
allocate `new_capacity` slots, copy the live range `[begin, end)` over, and
update the capacity. -/
def reserve (v : vector) (new_capacity : Nat) : vector :=
  if new_capacity ≤ v.m_capacity then v
  else
    { m_end := v.m_end, m_capacity := new_capacity,
      m_storage := v.m_storage.take v.m_end
                    ++ List.replicate (new_capacity - v.m_end) 0,
      m_null := false }

/-- `shrink_to_fit()`: no-op unless `capacity > size`; otherwise reallocate to
exactly `size` slots with the live range copied. -/
def shrink_to_fit (v : vector) : vector :=
  if v.m_capacity ≤ v.m_end then v
  else
    { m_end := v.m_end, m_capacity := v.m_end,
      m_storage := v.m_storage.take v.m_end, m_null := false }

/-- `clear()`: size becomes 0 and the buffer is replaced by a fresh
default-filled allocation of the same capacity. -/
def clear (v : vector) : vector :=
  { m_end := 0, m_capacity := v.m_capacity,
    m_storage := List.replicate v.m_capacity 0, m_null := false }

/-- `push_back(value)`: if full, reserve `capacity*2` (or 1 from capacity 0),
then write `value` at index `size` and increment `m_end`. -/
def push_back (v : vector) (value : Int) : vector :=
  let v1 := if v.full then
              (if 0 < v.m_capacity then v.reserve (v.m_capacity * 2)
               else v.reserve 1)
            else v
  { m_end := v1.m_end + 1, m_capacity := v1.m_capacity,
    m_storage := v1.m_storage.set v1.m_end value, m_null := v1.m_null }

/-- `pop_back()`: throws on an empty vector; otherwise overwrites the last
live slot with a default value (`value_type(0u)`) and decrements `m_end`. -/
def pop_back (v : vector) : Except VErr vector :=
  if v.m_end = 0 then .error .emptyContainer
  else .ok { m_end := v.m_end - 1, m_capacity := v.m_capacity,
             m_storage := v.m_storage.set (v.m_end - 1) 0, m_null := v.m_null }

/-- `at(pos)` (const and non-const are identical): throws `out_of_range`
when `pos >= m_end`, otherwise reads `m_storage[pos]`. -/
def vat (v : vector) (pos : Nat) : Access :=
  if v.m_end ≤ pos then .err .indexOutOfRange
  else match v.m_storage.get? pos with
       | some x => .ok x
       | none => .ub

/-- `operator[](pos)`: unchecked read of `m_storage[pos]`. -/
def idx (v : vector) (pos : Nat) : Access :=
  match v.m_storage.get? pos with
  | some x => .ok x
  | none => .ub

/-- `front()` const: `return this->at(0)`. -/
def frontC (v : vector) : Access := v.vat 0

/-- `front()` non-const: `return this->at(0)`. -/
def frontNC (v : vector) : Access := v.vat 0

/-- `back()` const: `return this->at(this->size()-1)` (the unsigned `size()-1`
wraps to `2^64-1` on an empty vector, so `at` reports out-of-range). -/
def backC (v : vector) : Access := v.vat (usub1 v.m_end)

/-- `back()` non-const: `return this->m_storage[this->size()-1]` — a direct
unchecked buffer read, not routed through `at`. -/
def backNC (v : vector) : Access :=
  match v.m_storage.get? (usub1 v.m_end) with
  | some x => .ok x
  | none => .ub

/-- The effect of `std::copy_backward(begin+pos, end, end+k)` on the buffer:
the block `[pos, mEnd)` is moved right by `k` slots; every other slot keeps
its value.  (The backward copy direction in the source exists exactly so that
this element-wise description is the outcome despite the overlap.) -/
def shiftRightBy (l : List Int) (pos k mEnd : Nat) : List Int :=
  (List.range l.length).map fun j =>
    if pos + k ≤ j ∧ j < mEnd + k then l.getD (j - k) 0 else l.getD j 0

/-- The effect of `std::copy(begin+first+k, end, begin+first)` in `erase`:
the tail `[first+k, mEnd)` is moved left onto `[first, mEnd-k)`; every other
slot keeps its value (in particular the slots from `mEnd-k` on are untouched). -/
def shiftLeftBy (l : List Int) (first k mEnd : Nat) : List Int :=
  (List.range l.length).map fun j =>
    if first ≤ j ∧ j + k < mEnd then l.getD (j + k) 0 else l.getD j 0

/-- Overwriting the first `src.length` slots of `dst` with `src`
(`std::copy(src.begin(), src.end(), this->begin())` in `assign`). -/
def copyIntoFront (dst src : List Int) : List Int :=
  (List.range dst.length).map fun j =>
    if j < src.length then src.getD j 0 else dst.getD j 0

/-- Overwriting the `k` slots `[pos, pos+k)` of `dst` with the elements
`src[sf], src[sf+1], ...` (`std::copy(first_, last_, begin()+offset_pos)` in
the range `insert`). -/
def copyShifted (dst : List Int) (pos : Nat) (src : List Int) (sf k : Nat) :
    List Int :=
  (List.range dst.length).map fun j =>
    if pos ≤ j ∧ j < pos + k then src.getD (sf + (j - pos)) 0 else dst.getD j 0

/-- Overwriting the first `n` slots with the value `x`
(`std::fill(begin, begin+count, value)` in `assign(count, value)`). -/
def fillFront (dst : List Int) (n : Nat) (x : Int) : List Int :=
  (List.range dst.length).map fun j => if j < n then x else dst.getD j 0

/-- `insert(pos, value)` (iterator and const_iterator overloads are
identical).  `pos` is the offset of the iterator from `begin()`; the result
carries the offset of the returned iterator.  Checks, in source order: null
storage, then offset within `[0, size]` (the `< 0` arm is dead code on the
unsigned type), then grows by doubling if full, shifts `[pos, end)` right by
one, writes the value, increments the size. -/
def insert1 (v : vector) (pos : Nat) (value : Int) : Except VErr (vector × Nat) :=
  if v.m_null then .error .uninitializedContainer
  else if v.m_end < pos then .error .indexOutOfRange
  else
    let v1 := if v.full then
                (if 0 < v.m_capacity then v.reserve (v.m_capacity * 2)
                 else v.reserve 1)
              else v
    .ok ({ m_end := v1.m_end + 1, m_capacity := v1.m_capacity,
           m_storage := (shiftRightBy v1.m_storage pos 1 v1.m_end).set pos value,
           m_null := v1.m_null }, pos)

/-- `insert(pos, first, last)` (range and initializer-list overloads).  The
input range is modelled as offsets `sf`, `sl` into a source list `src`.
Checks, in source order: null storage, then `first_ >= last_` rejected as
`invalid_argument`, then the position offset within `[0, size]`, then
`reserve(size + k)` when the capacity is short (exact fit, no doubling),
shift the tail right by `k`, copy the input into the gap, bump the size. -/
def insertRange (v : vector) (pos : Nat) (src : List Int) (sf sl : Nat) :
    Except VErr (vector × Nat) :=
  if v.m_null then .error .uninitializedContainer
  else if sl ≤ sf then .error .invalidArgument
  else
    let k := sl - sf
    if v.m_end < pos then .error .indexOutOfRange
    else
      let v1 := if v.m_capacity < v.m_end + k then v.reserve (v.m_end + k) else v
      .ok ({ m_end := v1.m_end + k, m_capacity := v1.m_capacity,
             m_storage := copyShifted (shiftRightBy v1.m_storage pos k v1.m_end)
                            pos src sf k,
             m_null := v1.m_null }, pos)

/-- `erase(first, last)` (iterator and const_iterator overloads).  Offsets
from `begin()`.  Checks, in source order: null storage, then empty vector,
then `first >= last` rejected as `invalid_argument`, then `offset_last`
within `[0, size]` (the `offset_first < 0` arm is dead code); copies the tail
left over the erased block, sets the size to `size - (last-first)`, returns
the offset `first`. -/
def erase (v : vector) (first last : Nat) : Except VErr (vector × Nat) :=
  if v.m_null then .error .uninitializedContainer
  else if v.m_end = 0 then .error .emptyContainer
  else if last ≤ first then .error .invalidArgument
  else
    let k := last - first
    if v.m_end < last then .error .indexOutOfRange
    else
      .ok ({ m_end := v.m_end - k, m_capacity := v.m_capacity,
             m_storage := shiftLeftBy v.m_storage first k v.m_end,
             m_null := v.m_null }, first)

/-- `erase(pos)`: `erase(pos, pos+1)`. -/
def erase1 (v : vector) (pos : Nat) : Except VErr (vector × Nat) :=
  v.erase pos (pos + 1)

/-- `assign(count, value)`: reserve if `count` exceeds the capacity, fill the
first `count` slots with `value`, set the size to `count`. -/
def assignCV (v : vector) (count : Nat) (value : Int) : vector :=
  let v1 := if v.m_capacity < count then v.reserve count else v
  { m_end := count, m_capacity := v1.m_capacity,
    m_storage := fillFront v1.m_storage count value, m_null := v1.m_null }

/-- `assign(ilist)` and `assign(first, last)`: reserve if the input length
exceeds the capacity, copy the input over the front, set the size to the
input length. -/
def assignList (v : vector) (l : List Int) : vector :=
  let v1 := if v.m_capacity < l.length then v.reserve l.length else v
  { m_end := l.length, m_capacity := v1.m_capacity,
    m_storage := copyIntoFront v1.m_storage l, m_null := v1.m_null }

end vector

/-- `equal(va, vb)`: false when the sizes differ, otherwise an index loop
comparing `va.at(i)` with `vb.at(i)` for every `i < va.size()` (both `at`
calls are in range there, so they are plain buffer reads). -/
def equalFn (va vb : vector) : Bool :=
  if va.m_end ≠ vb.m_end then false
  else (List.range va.m_end).all fun i => decide (va.slot i = vb.slot i)

/-- `operator==`: `equal(va, vb)`. -/
def eqOp (va vb : vector) : Bool := equalFn va vb

/-- `operator!=`: `not equal(va, vb)`. -/
def neOp (va vb : vector) : Bool := ! equalFn va vb

/-- `swap(first_, second_)`: exchanges the three members; the result is the
pair of vectors after the call. -/
def swapFn (a b : vector) : vector × vector := (b, a)

/-- The vectors constructible through the public interface: every
constructor, and every mutating operation applied to such a vector (for the
fallible ones, when it returns normally). -/
inductive Reachable : vector → Prop where
  | ctor (n : Nat) : Reachable (vector.ctor n)
  | fromList (l : List Int) : Reachable (vector.fromList l)
  | copy {v : vector} : Reachable v → Reachable (vector.copy v)
  | push {v : vector} (x : Int) : Reachable v → Reachable (v.push_back x)
  | pop {v w : vector} : Reachable v → v.pop_back = .ok w → Reachable w
  | ins1 {v w : vector} {r : Nat} {pos : Nat} {x : Int} :
      Reachable v → v.insert1 pos x = .ok (w, r) → Reachable w
  | insR {v w : vector} {r : Nat} {pos : Nat} {src : List Int} {sf sl : Nat} :
      Reachable v → v.insertRange pos src sf sl = .ok (w, r) → Reachable w
  | ers {v w : vector} {r : Nat} {first last : Nat} :
      Reachable v → v.erase first last = .ok (w, r) → Reachable w
  | res {v : vector} (n : Nat) : Reachable v → Reachable (v.reserve n)
  | shrink {v : vector} : Reachable v → Reachable v.shrink_to_fit
  | clear {v : vector} : Reachable v → Reachable v.clear
  | asgCV {v : vector} (n : Nat) (x : Int) : Reachable v → Reachable (v.assignCV n x)
  | asgL {v : vector} (l : List Int) : Reachable v → Reachable (v.assignList l)

end sc

namespace sc

/-! Helper lemmas about the buffer primitives. -/

theorem getD_set_self (l : List Int) (i : Nat) (x : Int) (h : i < l.length) :
    (l.set i x).getD i 0 = x := by
  simp [List.getD_eq_getElem?_getD, List.getElem?_set_self', List.getElem?_eq_getElem h]

theorem getD_set_ne (l : List Int) (i j : Nat) (x : Int) (h : i ≠ j) :
    (l.set i x).getD j 0 = l.getD j 0 := by
  simp [List.getD_eq_getElem?_getD, List.getElem?_set_ne h]

theorem getD_map_range (f : Nat → Int) (n j : Nat) (hj : j < n) :
    ((List.range n).map f).getD j 0 = f j := by
  simp [List.getD_eq_getElem?_getD, List.getElem?_map, List.getElem?_range hj]

theorem length_map_range (f : Nat → Int) (n : Nat) :
    ((List.range n).map f).length = n := by simp

/-- Reading a fresh-buffer copy (`take` of the live range padded with default
slots) inside the live range gives the original element. -/
theorem getD_fresh_lo (l : List Int) (e n i : Nat) (hi : i < e) (he : e ≤ l.length) :
    (l.take e ++ List.replicate (n - e) 0).getD i 0 = l.getD i 0 := by
  rw [List.getD_append]
  · simp [List.getD_eq_getElem?_getD, List.getElem?_take_of_lt hi]
  · simp [List.length_take]; omega

/-- Reading a fresh-buffer copy past the live range gives the default value. -/
theorem getD_fresh_hi (l : List Int) (e n i : Nat) (hi : e ≤ i) (he : e ≤ l.length) :
    (l.take e ++ List.replicate (n - e) 0).getD i 0 = 0 := by
  rcases Nat.lt_or_ge i n with hn | hn
  · rw [List.getD_append_right]
    · simp only [List.getD_eq_getElem?_getD, List.getElem?_replicate]
      split <;> rfl
    · simp [List.length_take]; omega
  · rw [List.getD_eq_default]
    simp [List.length_take]
    omega

theorem length_fresh (l : List Int) (e n : Nat) (he : e ≤ l.length) (hn : e ≤ n) :
    (l.take e ++ List.replicate (n - e) 0).length = n := by
  simp [List.length_take]
  omega

/-! Facts about `reserve` used by several developments below. -/

theorem reserve_m_end (v : vector) (n : Nat) : (v.reserve n).m_end = v.m_end := by
  unfold vector.reserve; split <;> rfl

theorem reserve_m_capacity (v : vector) (n : Nat) :
    (v.reserve n).m_capacity = if n ≤ v.m_capacity then v.m_capacity else n := by
  unfold vector.reserve; split <;> simp_all

theorem reserve_m_null (v : vector) (n : Nat) (h : v.m_null = false) :
    (v.reserve n).m_null = false := by
  unfold vector.reserve; split <;> simp_all

theorem reserve_length (v : vector) (n : Nat) (hwf : v.WF) :
    (v.reserve n).m_storage.length = (v.reserve n).m_capacity := by
  obtain ⟨hlen, hle, _⟩ := hwf
  unfold vector.reserve
  split
  · exact hlen
  · simpa using length_fresh v.m_storage v.m_end n (hlen ▸ hle) (by omega)

theorem reserve_slot (v : vector) (n : Nat) (hwf : v.WF) (i : Nat)
    (hi : i < v.m_end) : (v.reserve n).slot i = v.slot i := by
  obtain ⟨hlen, hle, _⟩ := hwf
  unfold vector.reserve vector.slot
  split
  · rfl
  · exact getD_fresh_lo v.m_storage v.m_end n i hi (hlen ▸ hle)

end sc

/-- C1: from the empty vector, `push_back 5, 7, 9` yield the states
(size 1, capacity 1), (size 2, capacity 2), (size 3, capacity 4); then
`at(2)` returns 9; `pop_back` leaves (size 2, capacity 4) and `at(2)` then
reports out-of-range.  In general `push_back` on a full vector first doubles
the capacity (or moves it from 0 to 1), then writes the value at index
`size` and increments the size. -/
theorem C1_push_back_growth :
    (((sc.vector.ctor 0).push_back 5).size = 1 ∧
     ((sc.vector.ctor 0).push_back 5).capacity = 1 ∧
     (((sc.vector.ctor 0).push_back 5).push_back 7).size = 2 ∧
     (((sc.vector.ctor 0).push_back 5).push_back 7).capacity = 2 ∧
     ((((sc.vector.ctor 0).push_back 5).push_back 7).push_back 9).size = 3 ∧
     ((((sc.vector.ctor 0).push_back 5).push_back 7).push_back 9).capacity = 4 ∧
     ((((sc.vector.ctor 0).push_back 5).push_back 7).push_back 9).vat 2 =
       .ok 9 ∧
     ((((sc.vector.ctor 0).push_back 5).push_back 7).push_back 9).pop_back =
       Except.ok (⟨2, 4, [5, 7, 0, 0], false⟩ : sc.vector) ∧
     (⟨2, 4, [5, 7, 0, 0], false⟩ : sc.vector).size = 2 ∧
     (⟨2, 4, [5, 7, 0, 0], false⟩ : sc.vector).capacity = 4 ∧
     (⟨2, 4, [5, 7, 0, 0], false⟩ : sc.vector).vat 2 = .err .indexOutOfRange) ∧
    ∀ v : sc.vector, ∀ x : Int, v.WF → v.full = true →
      (v.push_back x).capacity = (if v.capacity = 0 then 1 else v.capacity * 2) ∧
      (v.push_back x).size = v.size + 1 ∧
      (v.push_back x).slot v.size = x := by
  constructor
  · decide
  · intro v x hwf hfull
    obtain ⟨e, c, s, b⟩ := v
    obtain ⟨hlen, hle, _⟩ := hwf
    simp only at hlen hle
    have hfull2 : e = c := of_decide_eq_true hfull
    subst hfull2
    by_cases hc : e = 0
    · subst hc
      have hs : s = [] := List.eq_nil_of_length_eq_zero hlen
      subst hs
      refine ⟨?_, ?_, ?_⟩ <;>
        simp [sc.vector.push_back, sc.vector.full, sc.vector.reserve,
          sc.vector.slot, sc.vector.capacity, sc.vector.size]
    · have hpos : 0 < e := by omega
      have hreq : ¬ (e * 2 ≤ e) := by omega
      have hres : (sc.vector.mk e e s b).reserve (e * 2) =
          sc.vector.mk e (e * 2) (s.take e ++ List.replicate (e * 2 - e) 0)
            false := by
        unfold sc.vector.reserve
        rw [if_neg hreq]
      have hful : (sc.vector.mk e e s b).full = true := by
        simp [sc.vector.full]
      have hpb : (sc.vector.mk e e s b).push_back x =
          sc.vector.mk (e + 1) (e * 2)
            ((s.take e ++ List.replicate (e * 2 - e) 0).set e x) false := by
        simp only [sc.vector.push_back, hful, if_pos, if_true, hpos, hres]
      have hlen2 : (s.take e ++ List.replicate (e * 2 - e) 0).length = e * 2 :=
        sc.length_fresh s e (e * 2) (by omega) (by omega)
      rw [hpb]
      refine ⟨by simp [sc.vector.capacity, hc], rfl, ?_⟩
      show ((s.take e ++ List.replicate (e * 2 - e) 0).set e x).getD e 0 = x
      rw [sc.getD_set_self]
      rw [hlen2]; omega

/-- C1 witness: the general part applied to the concrete full vector
of size = capacity = 2 holding 5, 7, pushed with 9. -/
theorem C1_push_back_growth_witness :
    ((⟨2, 2, [5, 7], false⟩ : sc.vector).push_back 9).capacity = 4 ∧
    ((⟨2, 2, [5, 7], false⟩ : sc.vector).push_back 9).size = 3 ∧
    ((⟨2, 2, [5, 7], false⟩ : sc.vector).push_back 9).slot 2 = 9 := by
  have h := C1_push_back_growth.2 (⟨2, 2, [5, 7], false⟩ : sc.vector) 9
    (by constructor <;> simp [sc.UCAP]) (by decide)
  simpa using h

/-- C5: the sized constructor produces size = capacity = n with every slot
holding the default value 0. -/
theorem C5_sized_ctor (n : Nat) :
    (sc.vector.ctor n).size = n ∧ (sc.vector.ctor n).capacity = n ∧
    ∀ i, i < n → (sc.vector.ctor n).slot i = 0 := by
  refine ⟨rfl, rfl, fun i _ => ?_⟩
  simp only [sc.vector.ctor, sc.vector.slot, List.getD_eq_getElem?_getD,
    List.getElem?_replicate]
  split <;> rfl

/-- C5 witness: the sized constructor at n = 3. -/
theorem C5_sized_ctor_witness :
    (sc.vector.ctor 3).size = 3 ∧ (sc.vector.ctor 3).capacity = 3 ∧
    (sc.vector.ctor 3).slot 2 = 0 :=
  ⟨(C5_sized_ctor 3).1, (C5_sized_ctor 3).2.1, (C5_sized_ctor 3).2.2 2 (by decide)⟩

/-- C7: `reserve` never decreases the capacity and never changes the size or
a live element; with `n ≤ capacity` it is a complete no-op, and with
`n > capacity` the new capacity is exactly `n`. -/
theorem C7_reserve_frame (v : sc.vector) (n : Nat) (hwf : v.WF) :
    v.capacity ≤ (v.reserve n).capacity ∧
    (v.reserve n).size = v.size ∧
    (∀ i, i < v.size → (v.reserve n).slot i = v.slot i) ∧
    (n ≤ v.capacity → v.reserve n = v) ∧
    (v.capacity < n → (v.reserve n).capacity = n) := by
  refine ⟨?_, sc.reserve_m_end v n, fun i hi => sc.reserve_slot v n hwf i hi, ?_, ?_⟩
  · show v.m_capacity ≤ (v.reserve n).m_capacity
    rw [sc.reserve_m_capacity]; split <;> omega
  · intro h
    unfold sc.vector.reserve
    rw [if_pos (show n ≤ v.m_capacity from h)]
  · intro h
    show (v.reserve n).m_capacity = n
    rw [sc.reserve_m_capacity]
    rw [if_neg (show ¬ n ≤ v.m_capacity from Nat.not_le.mpr h)]

/-- C7 witness: `reserve` applied to a concrete vector, in both the no-op
and the growing regime. -/
theorem C7_reserve_frame_witness :
    ((⟨2, 3, [1, 2, 3], false⟩ : sc.vector).reserve 2).size = 2 ∧
    ((⟨2, 3, [1, 2, 3], false⟩ : sc.vector).reserve 2) =
      (⟨2, 3, [1, 2, 3], false⟩ : sc.vector) ∧
    ((⟨2, 3, [1, 2, 3], false⟩ : sc.vector).reserve 5).capacity = 5 ∧
    ((⟨2, 3, [1, 2, 3], false⟩ : sc.vector).reserve 5).slot 1 = 2 := by
  have hwf : (⟨2, 3, [1, 2, 3], false⟩ : sc.vector).WF := by
    constructor <;> simp [sc.UCAP]
  have h2 := C7_reserve_frame (⟨2, 3, [1, 2, 3], false⟩ : sc.vector) 2 hwf
  have h5 := C7_reserve_frame (⟨2, 3, [1, 2, 3], false⟩ : sc.vector) 5 hwf
  exact ⟨h2.2.1, h2.2.2.2.1 (by decide), h5.2.2.2.2 (by decide),
    by rw [h5.2.2.1 1 (by decide)]; decide⟩

/-- C2: on a non-empty allocated vector, `erase(first, last)` with
`first < last ≤ size` succeeds, copies the tail after `last` leftward onto
the gap, shrinks the size by exactly `last - first`, keeps the capacity, and
returns the offset `first` (whose slot now holds what followed the erased
range).  Concretely, erasing `[1, 3)` from `{1,2,3,4}` leaves live elements
`1, 4` with size 2 and capacity 4. -/
theorem C2_erase_range (v : sc.vector) (first last : Nat) (hwf : v.WF)
    (hnull : v.m_null = false) (hfl : first < last) (hlast : last ≤ v.m_end) :
    ((sc.vector.fromList [1, 2, 3, 4]).erase 1 3 =
      Except.ok (⟨2, 4, [1, 4, 3, 4], false⟩, 1) ∧
     (⟨2, 4, [1, 4, 3, 4], false⟩ : sc.vector).size = 2 ∧
     (⟨2, 4, [1, 4, 3, 4], false⟩ : sc.vector).capacity = 4 ∧
     (⟨2, 4, [1, 4, 3, 4], false⟩ : sc.vector).slot 0 = 1 ∧
     (⟨2, 4, [1, 4, 3, 4], false⟩ : sc.vector).slot 1 = 4) ∧
    (∃ w, v.erase first last = Except.ok (w, first)) ∧
    ∀ w r, v.erase first last = Except.ok (w, r) →
      r = first ∧
      w.size = v.size - (last - first) ∧
      w.capacity = v.capacity ∧
      (∀ j, j < first → w.slot j = v.slot j) ∧
      (∀ j, first ≤ j → j < w.size → w.slot j = v.slot (j + (last - first))) := by
  obtain ⟨hlen, hle, _⟩ := hwf
  have hne : v.m_end ≠ 0 := by omega
  have hinv : ¬ (last ≤ first) := by omega
  have hrng : ¬ (v.m_end < last) := by omega
  have herase : v.erase first last =
      Except.ok (⟨v.m_end - (last - first), v.m_capacity,
        sc.vector.shiftLeftBy v.m_storage first (last - first) v.m_end,
        v.m_null⟩, first) := by
    unfold sc.vector.erase
    rw [if_neg (by simp [hnull]), if_neg hne, if_neg hinv, if_neg hrng]
  refine ⟨by decide, ⟨_, herase⟩, ?_⟩
  intro w r h
  rw [herase] at h
  simp only [Except.ok.injEq, Prod.mk.injEq] at h
  obtain ⟨hw, hr⟩ := h
  subst hw
  subst hr
  refine ⟨rfl, rfl, rfl, ?_, ?_⟩
  · intro j hj
    show (sc.vector.shiftLeftBy v.m_storage first (last - first) v.m_end).getD
        j 0 = v.m_storage.getD j 0
    unfold sc.vector.shiftLeftBy
    rw [sc.getD_map_range _ _ j (by omega)]
    rw [if_neg (by omega)]
  · intro j hj1 hj2
    simp only [sc.vector.size] at hj2
    show (sc.vector.shiftLeftBy v.m_storage first (last - first) v.m_end).getD
        j 0 = v.m_storage.getD (j + (last - first)) 0
    unfold sc.vector.shiftLeftBy
    rw [sc.getD_map_range _ _ j (by omega)]
    rw [if_pos (by omega)]

/-- C2 witness: the general part applied to the `{1,2,3,4}` scenario, at the
concrete result vector of the erase. -/
theorem C2_erase_range_witness :
    (⟨2, 4, [1, 4, 3, 4], false⟩ : sc.vector).size =
      (sc.vector.fromList [1, 2, 3, 4]).size - (3 - 1) ∧
    (⟨2, 4, [1, 4, 3, 4], false⟩ : sc.vector).capacity =
      (sc.vector.fromList [1, 2, 3, 4]).capacity ∧
    (⟨2, 4, [1, 4, 3, 4], false⟩ : sc.vector).slot 0 =
      (sc.vector.fromList [1, 2, 3, 4]).slot 0 ∧
    (⟨2, 4, [1, 4, 3, 4], false⟩ : sc.vector).slot 1 =
      (sc.vector.fromList [1, 2, 3, 4]).slot (1 + (3 - 1)) := by
  have hg := (C2_erase_range (sc.vector.fromList [1, 2, 3, 4]) 1 3
    (by constructor <;> simp [sc.UCAP, sc.vector.fromList])
    (by decide) (by decide) (by decide)).2.2
    (⟨2, 4, [1, 4, 3, 4], false⟩ : sc.vector) 1 (by decide)
  exact ⟨hg.2.1, hg.2.2.1, hg.2.2.2.1 0 (by decide),
    hg.2.2.2.2 1 (by decide) (by decide)⟩

/-- C3: `pop_back` reports the empty-container error exactly when the size is
0; on a non-empty vector it overwrites the last live slot with the default
value 0, decrements the size, and leaves the lower live slots and the
capacity unchanged. -/
theorem C3_pop_back (v : sc.vector) (hwf : v.WF) :
    (v.pop_back = Except.error sc.VErr.emptyContainer ↔ v.size = 0) ∧
    ∀ w, v.pop_back = Except.ok w →
      w.size = v.size - 1 ∧ w.capacity = v.capacity ∧
      w.slot (v.size - 1) = 0 ∧
      ∀ j, j < v.size - 1 → w.slot j = v.slot j := by
  obtain ⟨hlen, hle, _⟩ := hwf
  by_cases h0 : v.m_end = 0
  · have hpop : v.pop_back = Except.error sc.VErr.emptyContainer := by
      unfold sc.vector.pop_back
      rw [if_pos h0]
    refine ⟨by simp [hpop, sc.vector.size, h0], ?_⟩
    intro w hw
    rw [hpop] at hw
    cases hw
  · have hpop : v.pop_back = Except.ok ⟨v.m_end - 1, v.m_capacity,
        v.m_storage.set (v.m_end - 1) 0, v.m_null⟩ := by
      unfold sc.vector.pop_back
      rw [if_neg h0]
    refine ⟨by simp [hpop, sc.vector.size, h0], ?_⟩
    intro w hw
    rw [hpop] at hw
    simp only [Except.ok.injEq] at hw
    subst hw
    refine ⟨rfl, rfl, ?_, ?_⟩
    · show (v.m_storage.set (v.m_end - 1) 0).getD (v.m_end - 1) 0 = 0
      rw [sc.getD_set_self _ _ _ (by omega)]
    · intro j hj
      simp only [sc.vector.size] at hj
      show (v.m_storage.set (v.m_end - 1) 0).getD j 0 = v.m_storage.getD j 0
      rw [sc.getD_set_ne _ _ _ _ (by omega)]

/-- C3 witness: `pop_back` on the concrete vector of size 2 holding 7, 8. -/
theorem C3_pop_back_witness :
    ((⟨2, 2, [7, 8], false⟩ : sc.vector).pop_back =
      Except.error sc.VErr.emptyContainer ↔
        (⟨2, 2, [7, 8], false⟩ : sc.vector).size = 0) ∧
    ∀ w, (⟨2, 2, [7, 8], false⟩ : sc.vector).pop_back = Except.ok w →
      w.size = 1 ∧ w.capacity = 2 ∧ w.slot 1 = 0 ∧ w.slot 0 = 7 := by
  have h := C3_pop_back (⟨2, 2, [7, 8], false⟩ : sc.vector)
    (by constructor <;> simp [sc.UCAP])
  refine ⟨h.1, ?_⟩
  intro w hw
  have hg := h.2 w hw
  refine ⟨hg.1, hg.2.1, hg.2.2.1, ?_⟩
  rw [hg.2.2.2 0 (by decide)]
  decide

/-- C8: `operator==` holds iff the sizes are equal and the elements agree at
every live index; the capacity plays no role, equality is reflexive and
symmetric, `operator!=` is the exact negation, and the vector `{1,2,3}` of
capacity 3 equals the `push_back`-built one that ends with capacity 4. -/
theorem C8_equality :
    (∀ va vb : sc.vector, sc.eqOp va vb = true ↔
       (va.size = vb.size ∧ ∀ i, i < va.size → va.slot i = vb.slot i)) ∧
    (∀ va : sc.vector, sc.eqOp va va = true) ∧
    (∀ va vb : sc.vector, sc.eqOp va vb = sc.eqOp vb va) ∧
    (∀ va vb : sc.vector, sc.neOp va vb = ! sc.eqOp va vb) ∧
    sc.eqOp (sc.vector.fromList [1, 2, 3])
      ((((sc.vector.ctor 0).push_back 1).push_back 2).push_back 3) = true ∧
    (sc.vector.fromList [1, 2, 3]).capacity = 3 ∧
    ((((sc.vector.ctor 0).push_back 1).push_back 2).push_back 3).capacity = 4 := by
  have hiff : ∀ va vb : sc.vector, sc.eqOp va vb = true ↔
      (va.size = vb.size ∧ ∀ i, i < va.size → va.slot i = vb.slot i) := by
    intro va vb
    unfold sc.eqOp sc.equalFn
    by_cases h : va.m_end = vb.m_end
    · rw [if_neg (by simpa using h)]
      simp only [List.all_eq_true, List.mem_range, decide_eq_true_eq,
        sc.vector.size, sc.vector.slot]
      constructor
      · exact fun hall => ⟨h, fun i hi => hall i hi⟩
      · exact fun hand i hi => hand.2 i hi
    · rw [if_pos (by simpa using h)]
      simp only [sc.vector.size]
      constructor
      · intro hF; cases hF
      · intro hand; exact absurd hand.1 h
  refine ⟨hiff, ?_, ?_, fun va vb => rfl, by decide, by decide, by decide⟩
  · intro va
    exact (hiff va va).mpr ⟨rfl, fun _ _ => rfl⟩
  · intro va vb
    cases ha : sc.eqOp va vb <;> cases hb : sc.eqOp vb va
    · rfl
    · exfalso
      obtain ⟨h1, h2⟩ := (hiff vb va).mp hb
      have hT : sc.eqOp va vb = true :=
        (hiff va vb).mpr ⟨h1.symm, fun i hi =>
          (h2 i (by rw [h1]; exact hi)).symm⟩
      rw [ha] at hT
      cases hT
    · exfalso
      obtain ⟨h1, h2⟩ := (hiff va vb).mp ha
      have hT : sc.eqOp vb va = true :=
        (hiff vb va).mpr ⟨h1.symm, fun i hi =>
          (h2 i (by rw [h1]; exact hi)).symm⟩
      rw [hb] at hT
      cases hT
    · rfl

/-- C8 witness: the element-wise characterisation applied to two concrete
vectors of equal size 2 but capacities 2 and 5. -/
theorem C8_equality_witness :
    sc.eqOp (sc.vector.fromList [5, 6]) (⟨2, 5, [5, 6, 9, 9, 9], false⟩ : sc.vector) =
      true :=
  (C8_equality.1 (sc.vector.fromList [5, 6])
    (⟨2, 5, [5, 6, 9, 9, 9], false⟩ : sc.vector)).mpr ⟨by decide, by decide⟩

/-- Reading past the end of a `range`-map image gives the default value. -/
theorem getD_map_range_ge (f : Nat → Int) (n j : Nat) (hj : n ≤ j) :
    ((List.range n).map f).getD j 0 = 0 := by
  rw [List.getD_eq_default]
  simpa using hj

/-- Reading past the end of any buffer gives the default value. -/
theorem getD_len_ge (l : List Int) (j : Nat) (hj : l.length ≤ j) :
    l.getD j 0 = 0 := List.getD_eq_default l 0 hj

/-- C4 counterexample: after erasing `[1, 3)` from `{1,2,3,4}` the slot at
index 2 — which lies in `[size, capacity) = [2, 4)` — still holds the stale
element 3, not a default value. -/
theorem C4_counterexample :
    (sc.vector.fromList [1, 2, 3, 4]).erase 1 3 =
      Except.ok (⟨2, 4, [1, 4, 3, 4], false⟩, 1) ∧
    (⟨2, 4, [1, 4, 3, 4], false⟩ : sc.vector).size = 2 ∧
    (⟨2, 4, [1, 4, 3, 4], false⟩ : sc.vector).capacity = 4 ∧
    (⟨2, 4, [1, 4, 3, 4], false⟩ : sc.vector).slot 2 = 3 ∧
    (3 : Int) ≠ 0 := by
  decide

/-- C4 amended: `erase` and a size-shrinking `assign` do not reset vacated
slots, so slots at indices in `[size, capacity)` can hold stale element
values.  After a successful `erase` every slot at an index at or beyond the
new size holds exactly its pre-erase value, and after `assign(count, value)`
with `count ≤ capacity` every slot at an index at or beyond `count` holds its
prior value. -/
theorem C4_amended_stale_slots (v : sc.vector) (hwf : v.WF) :
    (∀ first last w r, v.erase first last = Except.ok (w, r) →
       ∀ j, w.size ≤ j → w.slot j = v.slot j) ∧
    (∀ count x, count ≤ v.capacity →
       ∀ j, count ≤ j → (v.assignCV count x).slot j = v.slot j) := by
  obtain ⟨hlen, hle, _⟩ := hwf
  constructor
  · intro first last w r h j hj
    unfold sc.vector.erase at h
    split at h
    · cases h
    · split at h
      · cases h
      · split at h
        · cases h
        · split at h
          · cases h
          · simp only [Except.ok.injEq, Prod.mk.injEq] at h
            obtain ⟨hw, hr⟩ := h
            subst hw
            simp only [sc.vector.size] at hj
            show (sc.vector.shiftLeftBy v.m_storage first (last - first)
                v.m_end).getD j 0 = v.m_storage.getD j 0
            rcases Nat.lt_or_ge j v.m_storage.length with hjl | hjl
            · unfold sc.vector.shiftLeftBy
              rw [sc.getD_map_range _ _ j hjl]
              rw [if_neg (by omega)]
            · unfold sc.vector.shiftLeftBy
              rw [getD_map_range_ge _ _ j (by simpa using hjl)]
              rw [getD_len_ge _ _ hjl]
  · intro count x hcount j hj
    have hnores : ¬ (v.m_capacity < count) := by
      simp only [sc.vector.capacity] at hcount
      omega
    show (sc.vector.assignCV v count x).m_storage.getD j 0 = v.m_storage.getD j 0
    simp only [sc.vector.assignCV, if_neg hnores]
    rcases Nat.lt_or_ge j v.m_storage.length with hjl | hjl
    · unfold sc.vector.fillFront
      rw [sc.getD_map_range _ _ j hjl]
      rw [if_neg (by omega)]
    · unfold sc.vector.fillFront
      rw [getD_map_range_ge _ _ j (by simpa using hjl)]
      rw [getD_len_ge _ _ hjl]

/-- C4 amended witness: the erase part on the `{1,2,3,4}` scenario at index
2 (the stale 3), and the assign part shrinking `{1,2,3}` to one element. -/
theorem C4_amended_stale_slots_witness :
    (⟨2, 4, [1, 4, 3, 4], false⟩ : sc.vector).slot 2 =
      (sc.vector.fromList [1, 2, 3, 4]).slot 2 ∧
    ((sc.vector.fromList [1, 2, 3]).assignCV 1 9).slot 2 =
      (sc.vector.fromList [1, 2, 3]).slot 2 := by
  constructor
  · exact (C4_amended_stale_slots (sc.vector.fromList [1, 2, 3, 4])
      (by constructor <;> simp [sc.UCAP, sc.vector.fromList])).1
      1 3 (⟨2, 4, [1, 4, 3, 4], false⟩ : sc.vector) 1 (by decide) 2 (by decide)
  · exact (C4_amended_stale_slots (sc.vector.fromList [1, 2, 3])
      (by constructor <;> simp [sc.UCAP, sc.vector.fromList])).2
      1 9 (by decide) 2 (by decide)

/-- C6 counterexample: `erase` on the default-constructed empty vector with
the empty range `[0, 0)` reports the empty-container error, not the
invalid-argument error the claim requires for every vector state — the
empty-vector check runs before the range-order check. -/
theorem C6_counterexample :
    (sc.vector.ctor 0).erase 0 0 = Except.error sc.VErr.emptyContainer ∧
    sc.VErr.emptyContainer ≠ sc.VErr.invalidArgument := by
  decide

/-- C6 amended: the range `insert` rejects an empty or inverted input range
as invalid-argument in every vector state (its null-storage guard never
fires on a constructed vector); the range `erase` does so on every
non-empty vector, but on an empty vector its empty-container check fires
first, so the invalid range is reported as `emptyContainer` there. -/
theorem C6_amended_range_guard (v : sc.vector) (hnull : v.m_null = false) :
    (∀ pos src sf sl, sl ≤ sf →
       v.insertRange pos src sf sl = Except.error sc.VErr.invalidArgument) ∧
    (∀ first last, v.m_end ≠ 0 → last ≤ first →
       v.erase first last = Except.error sc.VErr.invalidArgument) ∧
    (v.m_end = 0 → ∀ first last,
       v.erase first last = Except.error sc.VErr.emptyContainer) := by
  refine ⟨?_, ?_, ?_⟩
  · intro pos src sf sl hsl
    unfold sc.vector.insertRange
    rw [if_neg (by simp [hnull]), if_pos hsl]
  · intro first last hne hinv
    unfold sc.vector.erase
    rw [if_neg (by simp [hnull]), if_neg hne, if_pos hinv]
  · intro h0 first last
    unfold sc.vector.erase
    rw [if_neg (by simp [hnull]), if_pos h0]

/-- C6 amended witness: the three guards on concrete vectors — an inverted
range insert on `{1}`, an empty-range erase on `{1}`, and an empty-range
erase on the empty vector. -/
theorem C6_amended_range_guard_witness :
    (sc.vector.fromList [1]).insertRange 0 [7, 8] 2 1 =
      Except.error sc.VErr.invalidArgument ∧
    (sc.vector.fromList [1]).erase 0 0 =
      Except.error sc.VErr.invalidArgument ∧
    (sc.vector.ctor 0).erase 3 3 = Except.error sc.VErr.emptyContainer :=
  ⟨(C6_amended_range_guard (sc.vector.fromList [1]) rfl).1 0 [7, 8] 2 1
      (by decide),
   (C6_amended_range_guard (sc.vector.fromList [1]) rfl).2.1 0 0
      (by decide) (by decide),
   (C6_amended_range_guard (sc.vector.ctor 0) rfl).2.2 rfl 3 3⟩

/-- C9 counterexample: non-const `back()` on the default-constructed empty
vector performs an unchecked out-of-bounds buffer read (`Access.ub` in the
model) instead of surfacing the out-of-range error the claim requires of
every const/non-const form; the const form does surface it. -/
theorem C9_counterexample :
    (sc.vector.ctor 0).backNC = sc.Access.ub ∧
    (sc.vector.ctor 0).backNC ≠ sc.Access.err sc.VErr.indexOutOfRange ∧
    (sc.vector.ctor 0).backC = sc.Access.err sc.VErr.indexOutOfRange := by
  refine ⟨?_, ?_, ?_⟩ <;>
    simp [sc.vector.backNC, sc.vector.backC, sc.vector.vat, sc.vector.ctor,
      sc.usub1, sc.UCAP]

/-- C9 amended: const `front`, non-const `front` and const `back` are routed
through `at(0)` / `at(size-1)` and raise the out-of-range error on an empty
vector; non-const `back` reads `m_storage[size()-1]` directly with no check,
so on an empty vector it is an out-of-bounds read of the buffer (undefined
behaviour, no error raised). -/
theorem C9_amended_back_unchecked (v : sc.vector) (hwf : v.WF)
    (h0 : v.size = 0) :
    v.frontC = v.vat 0 ∧
    v.frontNC = v.vat 0 ∧
    v.backC = v.vat (sc.usub1 v.size) ∧
    v.frontC = sc.Access.err sc.VErr.indexOutOfRange ∧
    v.frontNC = sc.Access.err sc.VErr.indexOutOfRange ∧
    v.backC = sc.Access.err sc.VErr.indexOutOfRange ∧
    v.backNC = sc.Access.ub := by
  obtain ⟨hlen, hle, hcap⟩ := hwf
  simp only [sc.vector.size] at h0
  have hU : sc.UCAP = 18446744073709551616 := by norm_num [sc.UCAP]
  have hat0 : v.vat 0 = sc.Access.err sc.VErr.indexOutOfRange := by
    unfold sc.vector.vat
    rw [if_pos (by omega)]
  have hatBig : v.vat (sc.usub1 v.m_end) = sc.Access.err sc.VErr.indexOutOfRange := by
    unfold sc.vector.vat
    rw [if_pos ?_]
    unfold sc.usub1
    rw [if_pos h0]
    omega
  refine ⟨rfl, rfl, rfl, hat0, hat0, hatBig, ?_⟩
  have hnone : v.m_storage.get? (sc.usub1 v.m_end) = none := by
    rw [List.get?_eq_none]
    unfold sc.usub1
    rw [if_pos h0]
    omega
  unfold sc.vector.backNC
  rw [hnone]

/-- C9 amended witness: the amended statement at the default-constructed
empty vector. -/
theorem C9_amended_back_unchecked_witness :
    (sc.vector.ctor 0).backC = sc.Access.err sc.VErr.indexOutOfRange ∧
    (sc.vector.ctor 0).backNC = sc.Access.ub :=
  ⟨(C9_amended_back_unchecked (sc.vector.ctor 0) (by decide) rfl).2.2.2.2.2.1,
   (C9_amended_back_unchecked (sc.vector.ctor 0) (by decide) rfl).2.2.2.2.2.2⟩

/-- `push_back` never makes the storage pointer null. -/
theorem push_back_m_null (v : sc.vector) (x : Int) (h : v.m_null = false) :
    (v.push_back x).m_null = false := by
  unfold sc.vector.push_back
  split
  · split
    · exact sc.reserve_m_null v _ h
    · exact sc.reserve_m_null v _ h
  · exact h

/-- Every vector constructible through the public interface has non-null
storage. -/
theorem reachable_m_null (v : sc.vector) (hr : sc.Reachable v) :
    v.m_null = false := by
  induction hr with
  | ctor n => rfl
  | fromList l => rfl
  | copy _ _ => rfl
  | push x _ ih => exact push_back_m_null _ x ih
  | pop _ h ih =>
      unfold sc.vector.pop_back at h
      split at h
      · cases h
      · simp only [Except.ok.injEq] at h
        subst h
        exact ih
  | ins1 _ h ih =>
      unfold sc.vector.insert1 at h
      split at h
      · cases h
      · split at h
        · cases h
        · simp only [Except.ok.injEq, Prod.mk.injEq] at h
          obtain ⟨hw, _⟩ := h
          subst hw
          show sc.vector.m_null (if _ then _ else _) = false
          split
          · split
            · exact sc.reserve_m_null _ _ ih
            · exact sc.reserve_m_null _ _ ih
          · exact ih
  | insR _ h ih =>
      unfold sc.vector.insertRange at h
      split at h
      · cases h
      · split at h
        · cases h
        · split at h
          · cases h
          · simp only [Except.ok.injEq, Prod.mk.injEq] at h
            obtain ⟨hw, _⟩ := h
            subst hw
            show sc.vector.m_null (if _ then _ else _) = false
            split
            · exact sc.reserve_m_null _ _ ih
            · exact ih
  | ers _ h ih =>
      unfold sc.vector.erase at h
      split at h
      · cases h
      · split at h
        · cases h
        · split at h
          · cases h
          · split at h
            · cases h
            · simp only [Except.ok.injEq, Prod.mk.injEq] at h
              obtain ⟨hw, _⟩ := h
              subst hw
              exact ih
  | res n _ ih => exact sc.reserve_m_null _ n ih
  | shrink _ ih =>
      unfold sc.vector.shrink_to_fit
      split
      · exact ih
      · rfl
  | clear _ _ => rfl
  | asgCV n x _ ih =>
      show sc.vector.m_null (if _ then _ else _) = false
      split
      · exact sc.reserve_m_null _ _ ih
      · exact ih
  | asgL l _ ih =>
      show sc.vector.m_null (if _ then _ else _) = false
      split
      · exact sc.reserve_m_null _ _ ih
      · exact ih

/-- C10: every constructor sets up a storage buffer even for count 0 (the
storage pointer of a constructed vector is never null), every public
operation preserves that, and consequently the null-storage
(`uninitializedContainer`, `std::runtime_error`) branch of `insert` and
`erase` can never be taken on a vector produced through the public
interface. -/
theorem C10_uninitialized_unreachable :
    (∀ n, (sc.vector.ctor n).m_null = false) ∧
    (∀ l, (sc.vector.fromList l).m_null = false) ∧
    (∀ v, (sc.vector.copy v).m_null = false) ∧
    (∀ v, sc.Reachable v → v.m_null = false) ∧
    (∀ v, sc.Reachable v → ∀ pos x,
       v.insert1 pos x ≠ Except.error sc.VErr.uninitializedContainer) ∧
    (∀ v, sc.Reachable v → ∀ pos src sf sl,
       v.insertRange pos src sf sl ≠
         Except.error sc.VErr.uninitializedContainer) ∧
    (∀ v, sc.Reachable v → ∀ first last,
       v.erase first last ≠ Except.error sc.VErr.uninitializedContainer) := by
  refine ⟨fun _ => rfl, fun _ => rfl, fun _ => rfl,
    fun v hr => reachable_m_null v hr, ?_, ?_, ?_⟩
  · intro v hr pos x h
    have hn := reachable_m_null v hr
    unfold sc.vector.insert1 at h
    rw [if_neg (by simp [hn])] at h
    split at h
    · exact absurd h (by decide)
    · simp at h
  · intro v hr pos src sf sl h
    have hn := reachable_m_null v hr
    unfold sc.vector.insertRange at h
    rw [if_neg (by simp [hn])] at h
    split at h
    · exact absurd h (by decide)
    · split at h
      · exact absurd h (by decide)
      · simp at h
  · intro v hr first last h
    have hn := reachable_m_null v hr
    unfold sc.vector.erase at h
    rw [if_neg (by simp [hn])] at h
    split at h
    · exact absurd h (by decide)
    · split at h
      · exact absurd h (by decide)
      · split at h
        · exact absurd h (by decide)
        · simp at h

/-- C10 witness: the conclusions at the concrete reachable vector built by
pushing 5 onto the default-constructed vector. -/
theorem C10_uninitialized_unreachable_witness :
    ((sc.vector.ctor 0).push_back 5).m_null = false ∧
    ((sc.vector.ctor 0).push_back 5).insert1 9 3 ≠
      Except.error sc.VErr.uninitializedContainer ∧
    ((sc.vector.ctor 0).push_back 5).erase 0 0 ≠
      Except.error sc.VErr.uninitializedContainer :=
  ⟨C10_uninitialized_unreachable.2.2.2.1 _
      (sc.Reachable.push 5 (sc.Reachable.ctor 0)),
   C10_uninitialized_unreachable.2.2.2.2.1 _
      (sc.Reachable.push 5 (sc.Reachable.ctor 0)) 9 3,
   C10_uninitialized_unreachable.2.2.2.2.2.2 _
      (sc.Reachable.push 5 (sc.Reachable.ctor 0)) 0 0⟩
